import Mathlib

/-!
Shallow embedding of the submission-intake route of `Ts2533/formulario`
(`src/app/api/register/route.ts`).  Strings are modelled as `List Char`
(JS strings, read left to right); times and HTTP statuses are `Nat`;
the in-memory rate-limit `Map` is an insertion-ordered association list;
fallible operations return `Except ClientError`.
-/

namespace Formulario

/-- JS strings are modelled as lists of characters. -/
abbrev Str := List Char

/-- Characters removed by the sanitizer's first regex
`/[\u0000-\u001F\u007F]/g`: the C0 controls and DEL. -/
def isCtrl (c : Char) : Bool := c.toNat ≤ 31 || c.toNat == 127

/-- The character class matched by JavaScript's `\s`
(whitespace, including line terminators). -/
def isWs (c : Char) : Bool :=
  c == '\t' || c == '\n' || c == '\x0b' || c == '\x0c' || c == '\r' || c == ' ' ||
  c == '\u00A0' || c == '\u1680' || ('\u2000' ≤ c && c ≤ '\u200A') ||
  c == '\u2028' || c == '\u2029' || c == '\u202F' || c == '\u205F' ||
  c == '\u3000' || c == '\uFEFF'

/-- The errors thrown by the route: a message plus an HTTP status
(the `ClientError` class; its constructor defaults the status to 400). -/
structure ClientError where
  message : Str
  status : Nat
deriving DecidableEq

/-- Embedding of `value.replace(/\s+/g, " ")`, processed left to right.  The boolean
flag records whether the previous character was whitespace (in which
case a further whitespace character extends the run already replaced). -/
def collapseAux : Bool → Str → Str
  | _, [] => []
  | prevWs, c :: cs =>
    if isWs c then
      if prevWs then collapseAux true cs else ' ' :: collapseAux true cs
    else c :: collapseAux false cs

/-- Replace every maximal run of whitespace by a single space. -/
def collapseWs (l : Str) : Str := collapseAux false l

/-- Drop leading whitespace. -/
def trimLeft (l : Str) : Str := l.dropWhile isWs

/-- Drop trailing whitespace. -/
def trimRight (l : Str) : Str := (l.reverse.dropWhile isWs).reverse

/-- JavaScript `String.prototype.trim`. -/
def trimStr (l : Str) : Str := trimRight (trimLeft l)

/-- The normalization part of `sanitizeText`:
`value.replace(/[\u0000-\u001F\u007F]/g, "").replace(/\s+/g, " ").trim()`. -/
def normalizeText (value : Str) : Str :=
  trimStr (collapseWs (value.filter (fun c => !isCtrl c)))

/-- Embedding of `sanitizeText(value, maxLength)`: normalize, then `.slice(0, maxLength)`. -/
def sanitizeText (value : Str) (maxLength : Nat) : Str :=
  (normalizeText value).take maxLength

/-- Rate-limit window: `5 * 60 * 1000` milliseconds. -/
def RATE_LIMIT_WINDOW_MS : Nat := 5 * 60 * 1000

/-- Maximum hits per window. -/
def RATE_LIMIT_MAX_REQUESTS : Nat := 10

/-- One entry of the rate-limit map. -/
structure RateLimitEntry where
  hits : Nat
  expiresAt : Nat
deriving DecidableEq

/-- The `rateLimitStore` map, as an insertion-ordered association list. -/
abbrev RLStore := List (Str × RateLimitEntry)

/-- Embedding of `Map.get`. -/
def rlGet : RLStore → Str → Option RateLimitEntry
  | [], _ => none
  | (k, e) :: rest, cid => if k = cid then some e else rlGet rest cid

/-- Embedding of `Map.set`: replace in place if the key is present, else append. -/
def rlSet : RLStore → Str → RateLimitEntry → RLStore
  | [], cid, v => [(cid, v)]
  | (k, e) :: rest, cid, v =>
    if k = cid then (cid, v) :: rest else (k, e) :: rlSet rest cid v

/-- The 429 error thrown by `enforceRateLimit`. -/
def rateLimitError : ClientError :=
  ⟨("Demasiadas solicitudes, intenta de nuevo en unos minutos.").data, 429⟩

/-- Embedding of `enforceRateLimit(clientId)` at time `now`, returning the outcome and
the updated store. -/
def enforceRateLimit (now : Nat) (s : RLStore) (cid : Str) :
    Except ClientError Unit × RLStore :=
  match rlGet s cid with
  | some entry =>
    if entry.expiresAt > now then
      if entry.hits ≥ RATE_LIMIT_MAX_REQUESTS then
        (Except.error rateLimitError, s)
      else
        (Except.ok (), rlSet s cid ⟨entry.hits + 1, entry.expiresAt⟩)
    else
      (Except.ok (), rlSet s cid ⟨1, now + RATE_LIMIT_WINDOW_MS⟩)
  | none => (Except.ok (), rlSet s cid ⟨1, now + RATE_LIMIT_WINDOW_MS⟩)

/-- Run `enforceRateLimit` once per listed time, threading the store and
collecting the outcomes. -/
def rlRun (cid : Str) : List Nat → RLStore → List (Except ClientError Unit) × RLStore
  | [], s => ([], s)
  | t :: ts, s =>
    let p := enforceRateLimit t s cid
    let q := rlRun cid ts p.2
    (p.1 :: q.1, q.2)

/-- The sentinel client identifier. -/
def unknownId : Str := ("unknown").data

/-- The `x-real-ip` fallback of `getClientId` (`|| "unknown"`). -/
def realIpFallback : Option Str → Str
  | some r => if r.isEmpty then unknownId else r
  | none => unknownId

/-- Embedding of `getClientId(req)`, as a function of the two header values
(`none` = header absent). -/
def getClientId (xff realIp : Option Str) : Str :=
  match xff with
  | some f =>
    if f.isEmpty then realIpFallback realIp
    else
      let first := trimStr (f.takeWhile (fun c => c ≠ ','))
      if first.isEmpty then unknownId else first
  | none => realIpFallback realIp

/-- The options object taken by `parseField`. -/
structure FieldOptions where
  maxLength : Option Nat
  pattern : Option (Str → Bool)
  label : Option Str

/-- Embedding of `key.replace(/_/g, " ")`. -/
def underscoreToSpace (key : Str) : Str :=
  key.map (fun c => if c = '_' then ' ' else c)

/-- Embedding of `options.label || key.replace(/_/g, " ")` (`||`: an empty label string
also falls back to the derived label). -/
def fieldLabel (key : Str) (opts : FieldOptions) : Str :=
  match opts.label with
  | some l => if l.isEmpty then underscoreToSpace key else l
  | none => underscoreToSpace key

/-- The "required" error: `El campo <label> es obligatorio.` -/
def requiredError (lbl : Str) : ClientError :=
  ⟨("El campo ").data ++ lbl ++ (" es obligatorio.").data, 400⟩

/-- The "invalid format" error: `<label> tiene un formato inválido.` -/
def formatError (lbl : Str) : ClientError :=
  ⟨lbl ++ (" tiene un formato inválido.").data, 400⟩

/-- Embedding of `parseField(formData, key, options)`, as a function of the raw value
`formData.get(key)` (`none` = absent; the empty string is falsy, like
`null`, under the code's `if (!value)`). -/
def parseField (key : Str) (raw : Option Str) (opts : FieldOptions) :
    Except ClientError Str :=
  match raw with
  | none => Except.error (requiredError (fieldLabel key opts))
  | some v =>
    if v.isEmpty then Except.error (requiredError (fieldLabel key opts))
    else
      let sanitized := sanitizeText v (opts.maxLength.getD 180)
      if sanitized.isEmpty then Except.error (requiredError (fieldLabel key opts))
      else
        match opts.pattern with
        | some p =>
          if p sanitized then Except.ok sanitized
          else Except.error (formatError (fieldLabel key opts))
        | none => Except.ok sanitized

/-- Embedding of `emailPattern = /^[^\s@]+@[^\s@]+\.[^\s@]+$/`: a nonempty run of
non-whitespace non-`@` characters, one `@`, then a run containing a dot
with nonempty pieces on both sides. -/
def emailPattern (s : Str) : Bool :=
  let a := s.takeWhile (fun c => c ≠ '@')
  match s.dropWhile (fun c => c ≠ '@') with
  | '@' :: b =>
    !a.isEmpty && a.all (fun c => !isWs c) &&
    b.all (fun c => !isWs c && c ≠ '@') && (b.drop 1).dropLast.contains '.'
  | _ => false

/-- Embedding of `phonePattern = /^[0-9+()\-.\s]{7,20}$/`. -/
def phonePattern (s : Str) : Bool :=
  7 ≤ s.length && s.length ≤ 20 &&
  s.all (fun c => c.isDigit || c == '+' || c == '(' || c == ')' ||
    c == '-' || c == '.' || isWs c)

/-- The grade pattern `/^[A-Za-z0-9°º\s-]{1,15}$/`. -/
def gradePattern (s : Str) : Bool :=
  1 ≤ s.length && s.length ≤ 15 &&
  s.all (fun c => c.isAlpha || c.isDigit || c == '°' || c == 'º' || isWs c || c == '-')

/-- The `responsible_id` pattern `/^[A-Za-z0-9\-.]{5,30}$/`. -/
def idPattern (s : Str) : Bool :=
  5 ≤ s.length && s.length ≤ 30 &&
  s.all (fun c => c.isAlpha || c.isDigit || c == '-' || c == '.')

/-- The allowed service options (`ALLOWED_SERVICES`). -/
def ALLOWED_SERVICES : List Str := [("AM").data, ("PM").data, ("1/2").data]

/-- The error thrown by `parseServices`. -/
def servicesError : ClientError :=
  ⟨("Selecciona al menos un servicio válido (AM, PM o 1/2).").data, 400⟩

/-- Deduplication in first-occurrence order (`new Set`/`Array.from`),
with an accumulator of values already seen. -/
def dedupAux (seen : List Str) : List Str → List Str
  | [] => []
  | x :: xs => if x ∈ seen then dedupAux seen xs else x :: dedupAux (x :: seen) xs

/-- The value pipeline of `parseServices`: sanitize each raw value to at
most 10 characters, drop empties (`filter(Boolean)`), deduplicate. -/
def servicesPipeline (raws : List Str) : List Str :=
  dedupAux [] ((raws.map (fun x => sanitizeText x 10)).filter (fun s => !s.isEmpty))

/-- Embedding of `parseServices(formData)`, as a function of the raw values
`formData.getAll("service_options")`. -/
def parseServices (raws : List Str) : Except ClientError (List Str) :=
  let unique := servicesPipeline raws
  let invalid := unique.filter (fun s => !ALLOWED_SERVICES.contains s)
  if invalid.length > 0 ∨ unique.length = 0 then Except.error servicesError
  else Except.ok unique

/-- The multipart form body: `formData.get` for single values and
`formData.getAll` for repeatable ones. -/
structure FormData where
  get : Str → Option Str
  getAll : Str → List Str

/-- The nineteen `parseField` calls of `POST`, in source order, with the
exact options each one passes. -/
def fieldDefs : List (Str × FieldOptions) :=
  [(("student_name").data, ⟨some 120, none, some ("nombre del estudiante").data⟩),
   (("grade").data, ⟨some 15, some gradePattern, some ("grado a cursar").data⟩),
   (("address").data, ⟨some 150, none, some ("dirección").data⟩),
   (("municipio").data, ⟨some 100, none, none⟩),
   (("sector").data, ⟨some 100, none, none⟩),
   (("urbanizacion").data, ⟨some 100, none, none⟩),
   (("bloque").data, ⟨some 50, none, some ("bloque o interior").data⟩),
   (("father_name").data, ⟨some 120, none, some ("nombre del padre").data⟩),
   (("father_phone").data, ⟨some 20, some phonePattern, some ("celular del padre").data⟩),
   (("father_office_phone").data,
     ⟨some 20, some phonePattern, some ("teléfono de oficina (padre)").data⟩),
   (("father_email").data, ⟨some 120, some emailPattern, some ("email del padre").data⟩),
   (("mother_name").data, ⟨some 120, none, some ("nombre de la madre").data⟩),
   (("mother_phone").data, ⟨some 20, some phonePattern, some ("celular de la madre").data⟩),
   (("mother_office_phone").data,
     ⟨some 20, some phonePattern, some ("teléfono de oficina (madre)").data⟩),
   (("mother_email").data, ⟨some 120, some emailPattern, some ("email de la madre").data⟩),
   (("other_guardian").data, ⟨some 120, none, some ("otro acudiente").data⟩),
   (("other_guardian_phone").data,
     ⟨some 20, some phonePattern, some ("celular del otro acudiente").data⟩),
   (("responsible_id").data, ⟨some 30, some idPattern, some ("cédula del responsable").data⟩),
   (("observaciones").data, ⟨some 500, none, none⟩)]

/-- Run `parseField` over a list of field definitions in order, stopping
at the first failure (each `const x = parseField(...)` throws). -/
def validateFields : List (Str × FieldOptions) → FormData → Except ClientError (List Str)
  | [], _ => Except.ok []
  | (k, o) :: rest, fd =>
    match parseField k (fd.get k) o with
    | Except.error e => Except.error e
    | Except.ok v =>
      match validateFields rest fd with
      | Except.error e => Except.error e
      | Except.ok vs => Except.ok (v :: vs)

/-- The whole validation phase of `POST`: the nineteen `parseField` calls
followed by `parseServices`. -/
def validateAll (fd : FormData) : Except ClientError (List Str × List Str) :=
  match validateFields fieldDefs fd with
  | Except.error e => Except.error e
  | Except.ok vs =>
    match parseServices (fd.getAll (("service_options").data)) with
    | Except.error e => Except.error e
    | Except.ok svc => Except.ok (vs, svc)

/-- A JSON response of the route: HTTP status, the `success` flag and the
`message`/`error` string. -/
structure GwResponse where
  status : Nat
  success : Bool
  message : Str
deriving DecidableEq

/-- The generic message of the `catch` block for non-`ClientError` faults. -/
def serverErrorMsg : Str := ("Error interno, intenta más tarde.").data

/-- The success message of the route. -/
def successMsg : Str := ("Formulario enviado correctamente").data

/-- The body of `POST` after rate-limit admission: validation, then the
single Supabase insert.  `insertError` is the store's outcome (`none` =
success, `some detail` = failure with that internal detail).  Returns the
response, the number of insert attempts, and the list of internal details
recorded via `console.error("SUPABASE INSERT ERROR:", ...)` for operators. -/
def gatewayBody (fd : FormData) (insertError : Option Str) :
    GwResponse × Nat × List Str :=
  match validateAll fd with
  | Except.error e => (⟨e.status, false, e.message⟩, 0, [])
  | Except.ok _ =>
    match insertError with
    | some detail => (⟨500, false, serverErrorMsg⟩, 1, [detail])
    | none => (⟨200, true, successMsg⟩, 1, [])

/-- The whole `POST` handler: client identification, rate limiting, then
the validation/insert body.  Returns the response, the rate-limit store
after the call, the number of insert attempts, and the operator log. -/
def handlePost (now : Nat) (rl : RLStore) (xff realIp : Option Str)
    (fd : FormData) (insertError : Option Str) :
    GwResponse × RLStore × Nat × List Str :=
  match enforceRateLimit now rl (getClientId xff realIp) with
  | (Except.error e, rl') => (⟨e.status, false, e.message⟩, rl', 0, [])
  | (Except.ok _, rl') =>
    let b := gatewayBody fd insertError
    (b.1, rl', b.2.1, b.2.2)

/-- Decidable check that a list has no two adjacent whitespace characters
(no whitespace run of length two or more). -/
def noAdjWs : Str → Bool
  | a :: b :: rest => !(isWs a && isWs b) && noAdjWs (b :: rest)
  | _ => true

/-- Association-list lookup used to build concrete form fixtures. -/
def assocGet : List (Str × Str) → Str → Option Str
  | [], _ => none
  | (k, v) :: rest, key => if k = key then some v else assocGet rest key

/-- Build a concrete `FormData` from single-valued entries plus the
repeatable `service_options` values. -/
def formOf (entries : List (Str × Str)) (svc : List Str) : FormData :=
  ⟨fun k => assocGet entries k,
   fun k => if k = ("service_options").data then svc else []⟩

/-- A fully valid submission (used to exercise the success and the
store-failure paths). -/
def validEntries : List (Str × Str) :=
  [(("student_name").data, ("Ana").data),
   (("grade").data, ("5").data),
   (("address").data, ("Calle 1").data),
   (("municipio").data, ("Centro").data),
   (("sector").data, ("Uno").data),
   (("urbanizacion").data, ("Norte").data),
   (("bloque").data, ("B1").data),
   (("father_name").data, ("Juan").data),
   (("father_phone").data, ("1234567").data),
   (("father_office_phone").data, ("1234567").data),
   (("father_email").data, ("a@b.co").data),
   (("mother_name").data, ("Maria").data),
   (("mother_phone").data, ("1234567").data),
   (("mother_office_phone").data, ("1234567").data),
   (("mother_email").data, ("c@d.co").data),
   (("other_guardian").data, ("Pedro").data),
   (("other_guardian_phone").data, ("1234567").data),
   (("responsible_id").data, ("12345").data),
   (("observaciones").data, ("Ninguna").data)]

/-- A fully valid form. -/
def fdValid : FormData := formOf validEntries [("AM").data]

/-- The same form with `father_email` removed. -/
def fdNoFatherEmail : FormData :=
  formOf (validEntries.filter (fun kv => kv.1 ≠ ("father_email").data)) [("AM").data]

/-! ## Lemmas about whitespace collapsing -/

/-- Unfolding `collapseAux` at a whitespace head with the flag set. -/
theorem collapseAux_cons_ws_true (x : Char) (xs : Str) (hx : isWs x = true) :
    collapseAux true (x :: xs) = collapseAux true xs := by
  simp [collapseAux, hx]

/-- Unfolding `collapseAux` at a whitespace head with the flag clear. -/
theorem collapseAux_cons_ws_false (x : Char) (xs : Str) (hx : isWs x = true) :
    collapseAux false (x :: xs) = ' ' :: collapseAux true xs := by
  simp [collapseAux, hx]

/-- Unfolding `collapseAux` at a non-whitespace head. -/
theorem collapseAux_cons_nws (b : Bool) (x : Char) (xs : Str) (hx : isWs x = false) :
    collapseAux b (x :: xs) = x :: collapseAux false xs := by
  simp [collapseAux, hx]

/-- Every character emitted by `collapseAux` is either the space standing
for a whitespace run or a non-whitespace input character. -/
theorem collapseAux_mem (c : Char) (l : Str) : ∀ (b : Bool),
    c ∈ collapseAux b l → c = ' ' ∨ (c ∈ l ∧ isWs c = false) := by
  induction l with
  | nil => intro b h; simp [collapseAux] at h
  | cons x xs ih =>
    intro b h
    cases hx : isWs x with
    | true =>
      cases b with
      | true =>
        rw [collapseAux_cons_ws_true x xs hx] at h
        rcases ih true h with h' | h'
        · exact Or.inl h'
        · exact Or.inr ⟨List.mem_cons_of_mem x h'.1, h'.2⟩
      | false =>
        rw [collapseAux_cons_ws_false x xs hx, List.mem_cons] at h
        rcases h with h | h
        · exact Or.inl h
        · rcases ih true h with h' | h'
          · exact Or.inl h'
          · exact Or.inr ⟨List.mem_cons_of_mem x h'.1, h'.2⟩
    | false =>
      rw [collapseAux_cons_nws b x xs hx, List.mem_cons] at h
      rcases h with h | h
      · subst h; exact Or.inr ⟨List.mem_cons_self c xs, hx⟩
      · rcases ih false h with h' | h'
        · exact Or.inl h'
        · exact Or.inr ⟨List.mem_cons_of_mem x h'.1, h'.2⟩

/-- After a whitespace run was just replaced, the next emitted character
is not whitespace. -/
theorem collapseAux_true_head (l : Str) : ∀ (c : Char),
    (collapseAux true l).head? = some c → isWs c = false := by
  induction l with
  | nil => intro c h; simp [collapseAux] at h
  | cons x xs ih =>
    intro c h
    cases hx : isWs x with
    | true => rw [collapseAux_cons_ws_true x xs hx] at h; exact ih c h
    | false =>
      rw [collapseAux_cons_nws true x xs hx, List.head?_cons] at h
      cases h; exact hx

/-- Unfolding of `noAdjWs` at a cons in terms of the head of the tail. -/
theorem noAdjWs_cons_iff (x : Char) (l : Str) :
    noAdjWs (x :: l) = true ↔
      (∀ y, l.head? = some y → (isWs x && isWs y) = false) ∧ noAdjWs l = true := by
  cases l with
  | nil => simp [noAdjWs]
  | cons y ys =>
    simp only [noAdjWs, Bool.and_eq_true, Bool.not_eq_true', List.head?_cons]
    constructor
    · rintro ⟨h1, h2⟩
      exact ⟨fun z hz => by cases hz; exact h1, h2⟩
    · rintro ⟨h1, h2⟩
      exact ⟨h1 y rfl, h2⟩

/-- The output of `collapseAux` has no two adjacent whitespace characters. -/
theorem collapseAux_noAdj (l : Str) : ∀ (b : Bool), noAdjWs (collapseAux b l) = true := by
  induction l with
  | nil => intro b; rfl
  | cons x xs ih =>
    intro b
    cases hx : isWs x with
    | true =>
      cases b with
      | true => rw [collapseAux_cons_ws_true x xs hx]; exact ih true
      | false =>
        rw [collapseAux_cons_ws_false x xs hx]
        refine (noAdjWs_cons_iff _ _).mpr ⟨fun y hy => ?_, ih true⟩
        simp [collapseAux_true_head xs y hy]
    | false =>
      rw [collapseAux_cons_nws b x xs hx]
      refine (noAdjWs_cons_iff _ _).mpr ⟨fun y _ => ?_, ih false⟩
      simp [hx]

/-- When the head is known not to be whitespace, the flag of `collapseAux`
is irrelevant. -/
theorem collapseAux_true_eq_false (l : Str)
    (h : ∀ c, l.head? = some c → isWs c = false) :
    collapseAux true l = collapseAux false l := by
  cases l with
  | nil => rfl
  | cons x xs =>
    have hx := h x rfl
    rw [collapseAux_cons_nws true x xs hx, collapseAux_cons_nws false x xs hx]

/-- Collapsing is the identity on a string whose whitespace is already
single spaces separated by non-whitespace. -/
theorem collapseAux_eq_self (l : Str) :
    (∀ c ∈ l, isWs c = true → c = ' ') → noAdjWs l = true →
    collapseAux false l = l := by
  induction l with
  | nil => intro _ _; rfl
  | cons x xs ih =>
    intro hws hadj
    have hadj' := ((noAdjWs_cons_iff x xs).mp hadj)
    have ihx := ih (fun c hc => hws c (List.mem_cons_of_mem x hc)) hadj'.2
    cases hx : isWs x with
    | false => rw [collapseAux_cons_nws false x xs hx, ihx]
    | true =>
      have hxsp : x = ' ' := hws x (List.mem_cons_self x xs) hx
      rw [collapseAux_cons_ws_false x xs hx]
      have hhead : ∀ c, xs.head? = some c → isWs c = false := by
        intro c hc
        have := hadj'.1 c hc
        simpa [hx] using this
      rw [collapseAux_true_eq_false xs hhead, ihx, hxsp]

/-- A whitespace-only tail disappears under the `true` flag. -/
theorem collapseAux_true_allWs (l : Str) (h : ∀ c ∈ l, isWs c = true) :
    collapseAux true l = [] := by
  induction l with
  | nil => rfl
  | cons x xs ih =>
    rw [collapseAux_cons_ws_true x xs (h x (List.mem_cons_self x xs))]
    exact ih (fun c hc => h c (List.mem_cons_of_mem x hc))

/-- A whitespace-only prefix is absorbed under the `true` flag. -/
theorem collapseAux_true_allWs_append (ms l : Str) (h : ∀ c ∈ ms, isWs c = true) :
    collapseAux true (ms ++ l) = collapseAux true l := by
  induction ms with
  | nil => rfl
  | cons x xs ih =>
    rw [List.cons_append, collapseAux_cons_ws_true x _ (h x (List.mem_cons_self x xs))]
    exact ih (fun c hc => h c (List.mem_cons_of_mem x hc))

/-- A nonempty whitespace-only string collapses to a single space. -/
theorem collapseWs_allWs_cons (x : Char) (xs : Str) (hx : isWs x = true)
    (h : ∀ c ∈ xs, isWs c = true) : collapseWs (x :: xs) = [' '] := by
  rw [collapseWs, collapseAux_cons_ws_false x xs hx, collapseAux_true_allWs xs h]

/-! ## Lemmas about trimming, prefixes and suffixes -/

/-- Lemma that `dropWhile` yields a suffix: the dropped prefix restores the list. -/
theorem trimLeft_decomp (l : Str) : l.takeWhile isWs ++ trimLeft l = l :=
  List.takeWhile_append_dropWhile isWs l

/-- Lemma that `trimRight` yields a prefix: the dropped suffix restores the list. -/
theorem trimRight_decomp (l : Str) :
    trimRight l ++ (l.reverse.takeWhile isWs).reverse = l := by
  have h := congrArg List.reverse (List.takeWhile_append_dropWhile isWs l.reverse)
  rw [List.reverse_append, List.reverse_reverse] at h
  exact h

/-- The head surviving a whitespace `dropWhile` is not whitespace. -/
theorem dropWhile_ws_head (l : Str) : ∀ (c : Char),
    (List.dropWhile isWs l).head? = some c → isWs c = false := by
  induction l with
  | nil => intro c h; simp at h
  | cons x xs ih =>
    intro c h
    cases hx : isWs x with
    | true => rw [List.dropWhile_cons, if_pos hx] at h; exact ih c h
    | false =>
      rw [List.dropWhile_cons, if_neg (by simp [hx]), List.head?_cons] at h
      cases h; exact hx

/-- A list whose head is not whitespace survives a whitespace `dropWhile`. -/
theorem dropWhile_ws_eq_self (l : Str)
    (h : ∀ c, l.head? = some c → isWs c = false) : List.dropWhile isWs l = l := by
  cases l with
  | nil => rfl
  | cons x xs => rw [List.dropWhile_cons, if_neg (by simp [h x rfl])]

/-- The head of a nonempty prefix is the head of the whole list. -/
theorem head?_append_of_head? (u v : Str) (c : Char) (h : u.head? = some c) :
    (u ++ v).head? = some c := by
  cases u with
  | nil => simp at h
  | cons x xs => cases h; rfl

/-- The head of `trimStr` is not whitespace. -/
theorem trimStr_head? (l : Str) (c : Char) (h : (trimStr l).head? = some c) :
    isWs c = false := by
  have hm : (trimLeft l).head? = some c := by
    have hd := trimRight_decomp (trimLeft l)
    rw [← hd]
    exact head?_append_of_head? _ _ c h
  exact dropWhile_ws_head l c hm

/-- The last character of `trimRight` is not whitespace. -/
theorem trimRight_getLast? (l : Str) (c : Char)
    (h : (trimRight l).getLast? = some c) : isWs c = false := by
  rw [trimRight, List.getLast?_reverse] at h
  exact dropWhile_ws_head l.reverse c h

/-- The function `trimLeft` is the identity when the head is not whitespace. -/
theorem trimLeft_eq_self (l : Str)
    (h : ∀ c, l.head? = some c → isWs c = false) : trimLeft l = l :=
  dropWhile_ws_eq_self l h

/-- The function `trimRight` is the identity when the last character is not whitespace. -/
theorem trimRight_eq_self (l : Str)
    (h : ∀ c, l.getLast? = some c → isWs c = false) : trimRight l = l := by
  rw [trimRight, dropWhile_ws_eq_self l.reverse, List.reverse_reverse]
  intro c hc
  rw [List.head?_reverse] at hc
  exact h c hc

/-- A prefix of a list with no adjacent whitespace has no adjacent
whitespace. -/
theorem noAdjWs_of_append_left (u : Str) : ∀ (v : Str),
    noAdjWs (u ++ v) = true → noAdjWs u = true := by
  induction u with
  | nil => intro v _; rfl
  | cons x xs ih =>
    intro v h
    rw [List.cons_append, noAdjWs_cons_iff] at h
    refine (noAdjWs_cons_iff x xs).mpr ⟨?_, ih v h.2⟩
    intro y hy
    exact h.1 y (head?_append_of_head? xs v y hy)

/-- A suffix of a list with no adjacent whitespace has no adjacent
whitespace. -/
theorem noAdjWs_of_append_right (u : Str) : ∀ (v : Str),
    noAdjWs (u ++ v) = true → noAdjWs v = true := by
  induction u with
  | nil => intro v h; exact h
  | cons x xs ih =>
    intro v h
    rw [List.cons_append, noAdjWs_cons_iff] at h
    exact ih v h.2

/-- Heads pass through `List.take` of a positive count. -/
theorem head?_take (l : Str) (n : Nat) (c : Char)
    (h : (l.take n).head? = some c) : l.head? = some c := by
  cases n with
  | zero => simp at h
  | succ m =>
    cases l with
    | nil => simp at h
    | cons x xs => rw [List.take_succ_cons, List.head?_cons] at h; exact h

/-! ## Properties of the sanitizer -/

/-- Characters of the normalized string: none is a control character
(given a control-free input source through the filter), and any
whitespace is a plain space. -/
theorem normalize_mem (s : Str) (c : Char) (h : c ∈ normalizeText s) :
    isCtrl c = false ∧ (isWs c = true → c = ' ') := by
  have hmem : c ∈ collapseWs (s.filter (fun c => !isCtrl c)) := by
    have h1 : c ∈ trimRight (trimLeft (collapseWs (s.filter (fun c => !isCtrl c)))) := h
    have h2 := trimRight_decomp (trimLeft (collapseWs (s.filter (fun c => !isCtrl c))))
    have h3 : c ∈ trimLeft (collapseWs (s.filter (fun c => !isCtrl c))) := by
      rw [← h2]; exact List.mem_append.mpr (Or.inl h1)
    have h4 := trimLeft_decomp (collapseWs (s.filter (fun c => !isCtrl c)))
    rw [← h4]
    exact List.mem_append.mpr (Or.inr h3)
  rcases collapseAux_mem c _ false hmem with hc | hc
  · subst hc; exact ⟨by decide, fun _ => rfl⟩
  · refine ⟨?_, fun hw => absurd hw (by simp [hc.2])⟩
    have := List.mem_filter.mp hc.1
    simpa using this.2

/-- The normalized string has no two adjacent whitespace characters. -/
theorem normalize_noAdj (s : Str) : noAdjWs (normalizeText s) = true := by
  have h0 : noAdjWs (collapseWs (s.filter (fun c => !isCtrl c))) = true :=
    collapseAux_noAdj _ false
  have h1 : noAdjWs (trimLeft (collapseWs (s.filter (fun c => !isCtrl c)))) = true :=
    noAdjWs_of_append_right
      (List.takeWhile isWs (collapseWs (s.filter (fun c => !isCtrl c))))
      (trimLeft (collapseWs (s.filter (fun c => !isCtrl c))))
      (by rw [trimLeft_decomp]; exact h0)
  have h2 : noAdjWs (trimRight (trimLeft (collapseWs (s.filter (fun c => !isCtrl c))))) = true :=
    noAdjWs_of_append_left
      (trimRight (trimLeft (collapseWs (s.filter (fun c => !isCtrl c)))))
      ((List.takeWhile isWs (trimLeft (collapseWs (s.filter (fun c => !isCtrl c)))).reverse).reverse)
      (by rw [trimRight_decomp]; exact h1)
  exact h2

/-- Sanitized strings: characters are control-free, whitespace is a plain
space, and both properties survive the final truncation. -/
theorem sanitize_mem (s : Str) (n : Nat) (c : Char) (h : c ∈ sanitizeText s n) :
    isCtrl c = false ∧ (isWs c = true → c = ' ') :=
  normalize_mem s c (List.take_subset n (normalizeText s) h)

/-- The sanitized string has no two adjacent whitespace characters. -/
theorem sanitize_noAdj (s : Str) (n : Nat) : noAdjWs (sanitizeText s n) = true := by
  have h := normalize_noAdj s
  exact noAdjWs_of_append_left (List.take n (normalizeText s)) (List.drop n (normalizeText s))
    (by rw [List.take_append_drop]; exact h)

/-- The sanitized string is no longer than the requested bound. -/
theorem sanitize_len (s : Str) (n : Nat) : (sanitizeText s n).length ≤ n :=
  List.length_take_le n (normalizeText s)

/-- The head of the sanitized string is not whitespace. -/
theorem sanitize_head (s : Str) (n : Nat) (c : Char)
    (h : (sanitizeText s n).head? = some c) : isWs c = false :=
  trimStr_head? _ c (head?_take _ n c h)

/-- Sanitizing is the identity on a string that is already in sanitized
shape and within the length bound. -/
theorem sanitize_eq_self (v : Str) (n : Nat)
    (hctrl : ∀ c ∈ v, isCtrl c = false)
    (hws : ∀ c ∈ v, isWs c = true → c = ' ')
    (hadj : noAdjWs v = true)
    (hhead : ∀ c, v.head? = some c → isWs c = false)
    (hlast : ∀ c, v.getLast? = some c → isWs c = false)
    (hlen : v.length ≤ n) : sanitizeText v n = v := by
  have h1 : v.filter (fun c => !isCtrl c) = v :=
    List.filter_eq_self.mpr (fun c hc => by simp [hctrl c hc])
  have h2 : collapseWs v = v := collapseAux_eq_self v hws hadj
  have h3 : trimLeft v = v := trimLeft_eq_self v hhead
  have h4 : trimRight v = v := trimRight_eq_self v hlast
  rw [sanitizeText, normalizeText, h1, h2, trimStr, h3, h4]
  exact List.take_of_length_le hlen

/-- Whitespace-or-control-only input normalizes to the empty string. -/
theorem normalize_wsctrl (s : Str)
    (h : ∀ c ∈ s, (isWs c || isCtrl c) = true) : normalizeText s = [] := by
  have hall : ∀ c ∈ s.filter (fun c => !isCtrl c), isWs c = true := by
    intro c hc
    have hm := List.mem_filter.mp hc
    have hnc : isCtrl c = false := by simpa using hm.2
    have := h c hm.1
    simpa [hnc] using this
  rw [normalizeText]
  cases hf : s.filter (fun c => !isCtrl c) with
  | nil => rfl
  | cons x xs =>
    rw [hf] at hall
    rw [collapseWs_allWs_cons x xs (hall x (List.mem_cons_self x xs))
      (fun c hc => hall c (List.mem_cons_of_mem x hc))]
    rfl

/-! ## Lemmas about parseField -/

/-- The required-field error and the format error can never coincide:
their messages differ in length for every label. -/
theorem requiredError_ne_formatError (lbl : Str) :
    requiredError lbl ≠ formatError lbl := by
  intro h
  have hm : (requiredError lbl).message = (formatError lbl).message := by rw [h]
  have hl := congrArg List.length hm
  simp [requiredError, formatError] at hl

/-- Anatomy of a successful `parseField`: the raw value was present and
nonempty, the result is its sanitization, nonempty, and it passes the
rule's pattern if there is one. -/
theorem parseField_ok_elim (key : Str) (raw : Option Str) (opts : FieldOptions) (v : Str)
    (h : parseField key raw opts = Except.ok v) :
    ∃ s, raw = some s ∧ v = sanitizeText s (opts.maxLength.getD 180) ∧ v ≠ [] ∧
      ∀ p, opts.pattern = some p → p v = true := by
  cases raw with
  | none => exact absurd h (by simp [parseField])
  | some s =>
    simp only [parseField] at h
    cases hsE : s.isEmpty with
    | true => rw [if_pos hsE] at h; exact absurd h (by simp)
    | false =>
      rw [if_neg (by simp [hsE])] at h
      cases hsan : (sanitizeText s (opts.maxLength.getD 180)).isEmpty with
      | true => rw [if_pos hsan] at h; exact absurd h (by simp)
      | false =>
        rw [if_neg (by simp [hsan])] at h
        cases hp : opts.pattern with
        | none =>
          rw [hp] at h
          have h' : (Except.ok (sanitizeText s (opts.maxLength.getD 180)) :
              Except ClientError Str) = Except.ok v := h
          injection h' with h'
          subst h'
          exact ⟨s, rfl, rfl, List.isEmpty_eq_false.mp hsan,
            fun p hpp => by simp at hpp⟩
        | some p =>
          rw [hp] at h
          have h' : (if p (sanitizeText s (opts.maxLength.getD 180)) = true then
              (Except.ok (sanitizeText s (opts.maxLength.getD 180)) : Except ClientError Str)
            else Except.error (formatError (fieldLabel key opts))) = Except.ok v := h
          cases hpv : p (sanitizeText s (opts.maxLength.getD 180)) with
          | true =>
            rw [if_pos hpv] at h'
            injection h' with h'
            subst h'
            exact ⟨s, rfl, rfl, List.isEmpty_eq_false.mp hsan,
              fun q hq => by cases hq; exact hpv⟩
          | false => rw [if_neg (by simp [hpv])] at h'; exact absurd h' (by simp)

/-- The error of every failing `parseField` carries status 400. -/
theorem parseField_error_status (key : Str) (raw : Option Str) (opts : FieldOptions)
    (e : ClientError) (h : parseField key raw opts = Except.error e) : e.status = 400 := by
  cases raw with
  | none => simp only [parseField] at h; cases h; rfl
  | some s =>
    simp only [parseField] at h
    cases hsE : s.isEmpty with
    | true => rw [if_pos hsE] at h; cases h; rfl
    | false =>
      rw [if_neg (by simp [hsE])] at h
      cases hsan : (sanitizeText s (opts.maxLength.getD 180)).isEmpty with
      | true => rw [if_pos hsan] at h; cases h; rfl
      | false =>
        rw [if_neg (by simp [hsan])] at h
        cases hp : opts.pattern with
        | none =>
          rw [hp] at h
          have h' : (Except.ok (sanitizeText s (opts.maxLength.getD 180)) :
              Except ClientError Str) = Except.error e := h
          exact absurd h' (by simp)
        | some p =>
          rw [hp] at h
          have h' : (if p (sanitizeText s (opts.maxLength.getD 180)) = true then
              (Except.ok (sanitizeText s (opts.maxLength.getD 180)) : Except ClientError Str)
            else Except.error (formatError (fieldLabel key opts))) = Except.error e := h
          cases hpv : p (sanitizeText s (opts.maxLength.getD 180)) with
          | true => rw [if_pos hpv] at h'; exact absurd h' (by simp)
          | false => rw [if_neg (by simp [hpv])] at h'; cases h'; rfl

/-! ## Claims C2, C6: the sanitizer -/

/-- C2: for every input string and every positive maximum length, the
sanitizer output contains no C0 control character and no DEL, contains
no run of two or more consecutive whitespace characters, and has length
at most the requested maximum. -/
theorem c2_sanitize_clean_bounded (s : Str) (n : Nat) (hn : 0 < n) :
    (sanitizeText s n).all (fun c => !isCtrl c) = true ∧
    noAdjWs (sanitizeText s n) = true ∧
    (sanitizeText s n).length ≤ n := by
  refine ⟨List.all_eq_true.mpr (fun c hc => ?_), sanitize_noAdj s n, sanitize_len s n⟩
  simp [(sanitize_mem s n c hc).1]

/-- Witness for C2 at a concrete input mixing controls, tabs, newlines
and repeated spaces. -/
theorem c2_sanitize_clean_bounded_witness :
    0 < 4 ∧
    ((sanitizeText (("ho").data ++ ['\t', '\n', '\x00'] ++ ("la  ya").data) 4).all
        (fun c => !isCtrl c) = true ∧
      noAdjWs (sanitizeText (("ho").data ++ ['\t', '\n', '\x00'] ++ ("la  ya").data) 4) = true ∧
      (sanitizeText (("ho").data ++ ['\t', '\n', '\x00'] ++ ("la  ya").data) 4).length ≤ 4) :=
  ⟨by decide, c2_sanitize_clean_bounded _ 4 (by decide)⟩

/-- C6 counterexample: a tab is removed as a control character before
whitespace collapsing, so two letters separated only by a tab end up
adjacent, not separated by one space as the claim demands. -/
theorem c6_tab_counterexample :
    sanitizeText ['a', '\t', 'b'] 180 = ['a', 'b'] ∧
    sanitizeText ['a', '\t', 'b'] 180 ≠ ['a', ' ', 'b'] :=
  ⟨rfl, by decide⟩

/-- C6 (amended): the sanitizer collapses every maximal run of
non-control whitespace to a single space; control characters (tabs and
newlines among them) are removed before collapsing.  Two non-whitespace,
non-control characters separated only by non-control whitespace are
separated by exactly one space in the normalized (untruncated) result. -/
theorem c6_amended_collapse (a b : Char) (mid : Str)
    (ha : isWs a = false) (hca : isCtrl a = false)
    (hb : isWs b = false) (hcb : isCtrl b = false)
    (hne : mid ≠ []) (hmid : ∀ c ∈ mid, isWs c = true ∧ isCtrl c = false) :
    normalizeText (a :: (mid ++ [b])) = [a, ' ', b] := by
  obtain ⟨m, ms, rfl⟩ : ∃ m ms, mid = m :: ms := by
    cases mid with
    | nil => exact absurd rfl hne
    | cons m ms => exact ⟨m, ms, rfl⟩
  have hfilter : (a :: ((m :: ms) ++ [b])).filter (fun c => !isCtrl c) =
      a :: ((m :: ms) ++ [b]) := by
    refine List.filter_eq_self.mpr ?_
    intro c hc
    rcases List.mem_cons.mp hc with rfl | hc
    · simp [hca]
    · rcases List.mem_append.mp hc with hc | hc
      · simp [(hmid c hc).2]
      · rcases List.mem_singleton.mp hc with rfl
        simp [hcb]
  have hm := (hmid m (List.mem_cons_self m ms)).1
  have hmsws : ∀ c ∈ ms, isWs c = true :=
    fun c hc => (hmid c (List.mem_cons_of_mem m hc)).1
  have hcol : collapseWs (a :: ((m :: ms) ++ [b])) = [a, ' ', b] := by
    rw [collapseWs, collapseAux_cons_nws false a _ ha, List.cons_append,
      collapseAux_cons_ws_false m _ hm, collapseAux_true_allWs_append ms [b] hmsws,
      collapseAux_cons_nws true b [] hb]
    rfl
  rw [normalizeText, hfilter, hcol, trimStr,
    trimLeft_eq_self [a, ' ', b] (fun c hc => by simp at hc; subst hc; exact ha),
    trimRight_eq_self [a, ' ', b] (fun c hc => by simp at hc; subst hc; exact hb)]

/-- Witness for the amended C6 at a concrete two-space run. -/
theorem c6_amended_collapse_witness :
    normalizeText ['a', ' ', ' ', 'b'] = ['a', ' ', 'b'] :=
  c6_amended_collapse 'a' 'b' [' ', ' '] (by decide) (by decide) (by decide) (by decide)
    (by decide) (by decide)

/-! ## Claims C5, C8: the validator -/

/-- The validator returns the required-field error exactly when the raw
value is absent, the empty string, or sanitizes to the empty string. -/
theorem parseField_required_iff (key : Str) (opts : FieldOptions) (raw : Option Str) :
    parseField key raw opts = Except.error (requiredError (fieldLabel key opts)) ↔
      raw = none ∨ raw = some [] ∨
        sanitizeText (raw.getD []) (opts.maxLength.getD 180) = [] := by
  cases raw with
  | none => simp [parseField]
  | some v =>
    cases hv : v.isEmpty with
    | true =>
      have hveq : v = [] := List.isEmpty_iff.mp hv
      subst hveq
      simp [parseField]
    | false =>
      have hvne : v ≠ [] := List.isEmpty_eq_false.mp hv
      cases hsan : (sanitizeText v (opts.maxLength.getD 180)).isEmpty with
      | true =>
        constructor
        · intro _
          exact Or.inr (Or.inr (by simpa using List.isEmpty_iff.mp hsan))
        · intro _
          simp only [parseField]
          rw [if_neg (by simp [hv]), if_pos hsan]
      | false =>
        constructor
        · intro h
          exfalso
          simp only [parseField] at h
          rw [if_neg (by simp [hv]), if_neg (by simp [hsan])] at h
          cases hp : opts.pattern with
          | none =>
            rw [hp] at h
            have h' : (Except.ok (sanitizeText v (opts.maxLength.getD 180)) :
                Except ClientError Str) =
                Except.error (requiredError (fieldLabel key opts)) := h
            simp at h'
          | some p =>
            rw [hp] at h
            have h' : (if p (sanitizeText v (opts.maxLength.getD 180)) = true then
                (Except.ok (sanitizeText v (opts.maxLength.getD 180)) :
                  Except ClientError Str)
              else Except.error (formatError (fieldLabel key opts))) =
                Except.error (requiredError (fieldLabel key opts)) := h
            cases hpv : p (sanitizeText v (opts.maxLength.getD 180)) with
            | true => rw [if_pos hpv] at h'; simp at h'
            | false =>
              rw [if_neg (by simp [hpv])] at h'
              injection h' with h'
              exact requiredError_ne_formatError (fieldLabel key opts) h'.symm
        · intro h
          rcases h with h | h | h
          · cases h
          · rw [Option.some.injEq] at h; exact absurd h hvne
          · exact absurd (by simpa using h) (List.isEmpty_eq_false.mp hsan)

/-- C5: the validator returns the required-field `ClientError` exactly
when the raw value is absent/empty or sanitizes to the empty string, and
whitespace-and-control-only input produces the very same result as a
missing value. -/
theorem c5_required_field (key : Str) (opts : FieldOptions) (raw : Option Str) :
    (parseField key raw opts = Except.error (requiredError (fieldLabel key opts)) ↔
      raw = none ∨ raw = some [] ∨
        sanitizeText (raw.getD []) (opts.maxLength.getD 180) = []) ∧
    (∀ s : Str, (∀ c ∈ s, (isWs c || isCtrl c) = true) →
      parseField key (some s) opts = parseField key none opts) := by
  refine ⟨parseField_required_iff key opts raw, ?_⟩
  intro s hs
  cases hse : s.isEmpty with
  | true =>
    have : s = [] := List.isEmpty_iff.mp hse
    subst this
    rfl
  | false =>
    have hws : normalizeText s = [] := normalize_wsctrl s hs
    simp only [parseField]
    rw [if_neg (by simp [hse]), if_pos (by simp [sanitizeText, hws])]

/-- Witness for C5: a whitespace-only value for the `municipio` rule is
rejected exactly like an absent value. -/
theorem c5_required_field_witness :
    parseField (("municipio").data) (some [' ', '\t', ' ']) ⟨some 100, none, none⟩ =
      parseField (("municipio").data) none ⟨some 100, none, none⟩ :=
  (c5_required_field (("municipio").data) ⟨some 100, none, none⟩ none).2
    [' ', '\t', ' '] (by decide)

/-- C8 counterexample: validating a 101-character `municipio` value whose
100th character is a space yields a value with a trailing space; running
the validator again on that value trims the space, so validation is not
idempotent. -/
theorem c8_not_idempotent_counterexample :
    parseField (("municipio").data) (some (List.replicate 99 'a' ++ [' ', 'b']))
      ⟨some 100, none, none⟩ = Except.ok (List.replicate 99 'a' ++ [' ']) ∧
    parseField (("municipio").data) (some (List.replicate 99 'a' ++ [' ']))
      ⟨some 100, none, none⟩ = Except.ok (List.replicate 99 'a') ∧
    List.replicate 99 'a' ++ [' '] ≠ List.replicate 99 'a' :=
  ⟨rfl, rfl, by decide⟩

/-- C8 (amended): the validator is idempotent on every successful result
that does not end in a space (truncation at the maximum length is the
only way a successful result can end in a space). -/
theorem c8_amended_idempotent (key : Str) (opts : FieldOptions) (raw : Option Str)
    (v : Str) (h : parseField key raw opts = Except.ok v)
    (hlast : v.getLast? ≠ some ' ') :
    parseField key (some v) opts = Except.ok v := by
  obtain ⟨s, hraw, hv, hne, hpat⟩ := parseField_ok_elim key raw opts v h
  subst hv
  have hctrl : ∀ c ∈ sanitizeText s (opts.maxLength.getD 180), isCtrl c = false :=
    fun c hc => (sanitize_mem s _ c hc).1
  have hwsp : ∀ c ∈ sanitizeText s (opts.maxLength.getD 180), isWs c = true → c = ' ' :=
    fun c hc => (sanitize_mem s _ c hc).2
  have hadj := sanitize_noAdj s (opts.maxLength.getD 180)
  have hhead := sanitize_head s (opts.maxLength.getD 180)
  have hlastws : ∀ c, (sanitizeText s (opts.maxLength.getD 180)).getLast? = some c →
      isWs c = false := by
    intro c hc
    cases hw : isWs c with
    | false => rfl
    | true =>
      have hmem : c ∈ sanitizeText s (opts.maxLength.getD 180) :=
        List.mem_of_mem_getLast? hc
      have hsp := hwsp c hmem hw
      exact absurd (hsp ▸ hc) hlast
  have heq : sanitizeText (sanitizeText s (opts.maxLength.getD 180))
      (opts.maxLength.getD 180) = sanitizeText s (opts.maxLength.getD 180) :=
    sanitize_eq_self _ _ hctrl hwsp hadj hhead hlastws (sanitize_len s _)
  simp only [parseField]
  rw [if_neg (by simp [List.isEmpty_iff, hne]), heq,
    if_neg (by simp [List.isEmpty_iff, hne])]
  cases hp : opts.pattern with
  | none => rfl
  | some p =>
    have hpv := hpat p hp
    show (if p (sanitizeText s (opts.maxLength.getD 180)) = true then
        (Except.ok (sanitizeText s (opts.maxLength.getD 180)) : Except ClientError Str)
      else Except.error (formatError (fieldLabel key opts))) = _
    rw [if_pos hpv]

/-- Witness for the amended C8: a short in-bound value validates to
itself twice over. -/
theorem c8_amended_idempotent_witness :
    parseField (("municipio").data) (some (("hola ya").data)) ⟨some 100, none, none⟩ =
      Except.ok (("hola ya").data) :=
  c8_amended_idempotent (("municipio").data) ⟨some 100, none, none⟩
    (some (("hola ya").data)) (("hola ya").data) rfl (by decide)

/-! ## Claims C1, C10: the rate limiter -/

/-- Setting a key makes it readable. -/
theorem rlGet_rlSet_self (s : RLStore) (cid : Str) (v : RateLimitEntry) :
    rlGet (rlSet s cid v) cid = some v := by
  induction s with
  | nil => simp [rlSet, rlGet]
  | cons kv rest ih =>
    obtain ⟨k, e⟩ := kv
    by_cases hk : k = cid
    · subst hk; simp [rlSet, rlGet]
    · simp [rlSet, rlGet, hk, ih]

/-- An in-window call below the maximum increments the hit count. -/
theorem enforceRateLimit_step (now : Nat) (s : RLStore) (cid : Str) (k E : Nat)
    (hget : rlGet s cid = some ⟨k, E⟩) (hnow : now < E)
    (hk : k < RATE_LIMIT_MAX_REQUESTS) :
    enforceRateLimit now s cid = (Except.ok (), rlSet s cid ⟨k + 1, E⟩) := by
  simp [enforceRateLimit, hget, hnow, Nat.not_le.mpr hk]

/-- An in-window call at the maximum is rejected and mutates nothing. -/
theorem enforceRateLimit_reject (now : Nat) (s : RLStore) (cid : Str) (e : RateLimitEntry)
    (hget : rlGet s cid = some e) (hnow : now < e.expiresAt)
    (hk : RATE_LIMIT_MAX_REQUESTS ≤ e.hits) :
    enforceRateLimit now s cid = (Except.error rateLimitError, s) := by
  simp [enforceRateLimit, hget, hnow, hk]

/-- A missing or expired entry is overwritten with hit count 1 and a
fresh expiry, and the call is admitted. -/
theorem enforceRateLimit_reset (now : Nat) (s : RLStore) (cid : Str)
    (h : rlGet s cid = none ∨ ∃ e, rlGet s cid = some e ∧ e.expiresAt ≤ now) :
    enforceRateLimit now s cid =
      (Except.ok (), rlSet s cid ⟨1, now + RATE_LIMIT_WINDOW_MS⟩) := by
  rcases h with h | ⟨e, hget, hle⟩
  · simp [enforceRateLimit, h]
  · simp [enforceRateLimit, hget, Nat.not_lt.mpr hle]

/-- Running a batch of in-window calls below the maximum admits all of
them and adds their count to the entry. -/
theorem rlRun_within (cid : Str) : ∀ (ts : List Nat) (s : RLStore) (k E : Nat),
    rlGet s cid = some ⟨k, E⟩ → (∀ t ∈ ts, t < E) →
    k + ts.length ≤ RATE_LIMIT_MAX_REQUESTS →
    (rlRun cid ts s).1 = List.replicate ts.length (Except.ok ()) ∧
    rlGet (rlRun cid ts s).2 cid = some ⟨k + ts.length, E⟩ := by
  intro ts
  induction ts with
  | nil => intro s k E hget _ _; exact ⟨rfl, by simpa using hget⟩
  | cons t ts ih =>
    intro s k E hget hts hk
    have ht := hts t (List.mem_cons_self t ts)
    have hklt : k < RATE_LIMIT_MAX_REQUESTS := by
      simp only [List.length_cons] at hk; omega
    have hstep := enforceRateLimit_step t s cid k E hget ht hklt
    have hget' : rlGet (rlSet s cid ⟨k + 1, E⟩) cid = some ⟨k + 1, E⟩ :=
      rlGet_rlSet_self s cid _
    have ihr := ih (rlSet s cid ⟨k + 1, E⟩) (k + 1) E hget'
      (fun t' ht' => hts t' (List.mem_cons_of_mem t ht'))
      (by simp only [List.length_cons] at hk ⊢; omega)
    have harith : k + 1 + ts.length = k + (ts.length + 1) := by omega
    refine ⟨?_, ?_⟩
    · simp only [rlRun, hstep]
      simp [ihr.1, List.replicate_succ]
    · simp only [rlRun, hstep]
      simp only [List.length_cons, ← harith]
      simpa using ihr.2

/-- The runner `rlRun` splits over list append. -/
theorem rlRun_append (cid : Str) : ∀ (u v : List Nat) (s : RLStore),
    rlRun cid (u ++ v) s =
      ((rlRun cid u s).1 ++ (rlRun cid v (rlRun cid u s).2).1,
        (rlRun cid v (rlRun cid u s).2).2) := by
  intro u
  induction u with
  | nil => intro v s; simp [rlRun]
  | cons t ts ih => intro v s; simp [rlRun, ih]

/-- C1: from a fresh client identifier, the first ten admission calls
within the window are admitted and the eleventh is rejected with the
429-classified rate-limit error; and once an entry's expiry is at or
before the current time, the next call is admitted and resets the entry
to hit count 1 with a new expiry. -/
theorem c1_rate_limiter :
    (∀ (s : RLStore) (cid : Str) (t0 : Nat) (ts : List Nat),
      rlGet s cid = none → ts.length = RATE_LIMIT_MAX_REQUESTS →
      (∀ t ∈ ts, t0 ≤ t ∧ t < t0 + RATE_LIMIT_WINDOW_MS) →
      (rlRun cid (t0 :: ts) s).1 =
        List.replicate RATE_LIMIT_MAX_REQUESTS (Except.ok ()) ++
          [Except.error rateLimitError]) ∧
    rateLimitError.status = 429 ∧
    (∀ (now : Nat) (s : RLStore) (cid : Str) (e : RateLimitEntry),
      rlGet s cid = some e → e.expiresAt ≤ now →
      enforceRateLimit now s cid =
        (Except.ok (), rlSet s cid ⟨1, now + RATE_LIMIT_WINDOW_MS⟩) ∧
      rlGet (rlSet s cid ⟨1, now + RATE_LIMIT_WINDOW_MS⟩) cid =
        some ⟨1, now + RATE_LIMIT_WINDOW_MS⟩) := by
  refine ⟨?_, rfl, ?_⟩
  · intro s cid t0 ts h0 hlen hts
    have h10 : RATE_LIMIT_MAX_REQUESTS = 10 := rfl
    have hne : ts ≠ [] := by
      intro h; rw [h] at hlen; rw [h10] at hlen; simp at hlen
    obtain ⟨u, tl, rfl⟩ : ∃ u tl, ts = u ++ [tl] :=
      ⟨_, _, (List.dropLast_append_getLast hne).symm⟩
    have hulen : u.length + 1 = RATE_LIMIT_MAX_REQUESTS := by simpa using hlen
    have hstep0 := enforceRateLimit_reset t0 s cid (Or.inl h0)
    have hget1 := rlGet_rlSet_self s cid ⟨1, t0 + RATE_LIMIT_WINDOW_MS⟩
    have hrun := rlRun_within cid u (rlSet s cid ⟨1, t0 + RATE_LIMIT_WINDOW_MS⟩) 1
      (t0 + RATE_LIMIT_WINDOW_MS) hget1
      (fun t htm => (hts t (List.mem_append_left [tl] htm)).2)
      (by omega)
    have htl_mem : tl ∈ u ++ [tl] := List.mem_append_right u (List.mem_singleton.mpr rfl)
    have hrej := enforceRateLimit_reject tl
      (rlRun cid u (rlSet s cid ⟨1, t0 + RATE_LIMIT_WINDOW_MS⟩)).2 cid
      ⟨1 + u.length, t0 + RATE_LIMIT_WINDOW_MS⟩ hrun.2 (hts tl htl_mem).2 (by simp; omega)
    have hu9 : u.length = 9 := by omega
    have key : (rlRun cid (t0 :: (u ++ [tl])) s).1 =
        Except.ok () :: (List.replicate u.length (Except.ok ()) ++
          [Except.error rateLimitError]) := by
      simp only [rlRun, hstep0, rlRun_append]
      simp [rlRun, hrun.1, hrej]
    rw [key, hu9, h10]
    rfl
  · intro now s cid e hget hle
    exact ⟨enforceRateLimit_reset now s cid (Or.inr ⟨e, hget, hle⟩),
      rlGet_rlSet_self s cid _⟩

/-- Witness for C1: eleven immediate calls from a fresh identifier give
ten admissions then one rejection. -/
theorem c1_rate_limiter_witness :
    (rlRun (("c").data) (0 :: List.replicate 10 0) []).1 =
      List.replicate RATE_LIMIT_MAX_REQUESTS (Except.ok ()) ++
        [Except.error rateLimitError] :=
  c1_rate_limiter.1 [] (("c").data) 0 (List.replicate 10 0) rfl (by decide) (by decide)

/-- C10: a rejected call (entry in window, hit count at the maximum)
returns the 429 error and leaves the rate-limit store exactly as it was:
no increment, no expiry extension. -/
theorem c10_reject_leaves_state (now : Nat) (s : RLStore) (cid : Str) (e : RateLimitEntry)
    (h1 : rlGet s cid = some e) (h2 : now < e.expiresAt)
    (h3 : RATE_LIMIT_MAX_REQUESTS ≤ e.hits) :
    enforceRateLimit now s cid = (Except.error rateLimitError, s) ∧
    rateLimitError.status = 429 :=
  ⟨enforceRateLimit_reject now s cid e h1 h2 h3, rfl⟩

/-- Witness for C10 at a concrete saturated store. -/
theorem c10_reject_leaves_state_witness :
    enforceRateLimit 0 [((("c").data), ⟨10, 5⟩)] (("c").data) =
      (Except.error rateLimitError, [((("c").data), ⟨10, 5⟩)]) ∧
    rateLimitError.status = 429 :=
  c10_reject_leaves_state 0 [((("c").data), ⟨10, 5⟩)] (("c").data) ⟨10, 5⟩
    rfl (by decide) (by decide)

/-! ## Claim C4: the multi-value service validator -/

/-- Members of the deduplicated list come from the input list. -/
theorem dedupAux_mem : ∀ (l seen : List Str) (x : Str), x ∈ dedupAux seen l → x ∈ l := by
  intro l
  induction l with
  | nil => intro seen x h; simp [dedupAux] at h
  | cons y ys ih =>
    intro seen x h
    by_cases hy : y ∈ seen
    · rw [dedupAux, if_pos hy] at h
      exact List.mem_cons_of_mem y (ih seen x h)
    · rw [dedupAux, if_neg hy] at h
      rcases List.mem_cons.mp h with rfl | h
      · exact List.mem_cons_self x ys
      · exact List.mem_cons_of_mem y (ih (y :: seen) x h)

/-- The deduplicated list has no duplicates and avoids the seen set. -/
theorem dedupAux_nodup : ∀ (l seen : List Str),
    (dedupAux seen l).Nodup ∧ ∀ x ∈ dedupAux seen l, x ∉ seen := by
  intro l
  induction l with
  | nil => intro seen; exact ⟨List.nodup_nil, by simp [dedupAux]⟩
  | cons y ys ih =>
    intro seen
    by_cases hy : y ∈ seen
    · rw [dedupAux, if_pos hy]
      exact ih seen
    · rw [dedupAux, if_neg hy]
      obtain ⟨hnd, hns⟩ := ih (y :: seen)
      refine ⟨List.nodup_cons.mpr ⟨fun hmem => ?_, hnd⟩, ?_⟩
      · exact (hns y hmem) (List.mem_cons_self y seen)
      · intro x hx hxseen
        rcases List.mem_cons.mp hx with rfl | hx'
        · exact hy hxseen
        · exact hns x hx' (List.mem_cons_of_mem y hxseen)

/-- Every surviving service value was sanitized to at most 10 characters. -/
theorem servicesPipeline_len (raws : List Str) (x : Str)
    (h : x ∈ servicesPipeline raws) : x.length ≤ 10 := by
  have h1 : x ∈ (raws.map (fun r => sanitizeText r 10)).filter (fun s => !s.isEmpty) :=
    dedupAux_mem _ [] x h
  have h2 := (List.mem_filter.mp h1).1
  obtain ⟨r, _, rfl⟩ := List.mem_map.mp h2
  exact sanitize_len r 10

/-- Rewriting `parseServices` in terms of the positive success condition. -/
theorem parseServices_eq (raws : List Str) :
    parseServices raws =
      if servicesPipeline raws ≠ [] ∧
          (servicesPipeline raws).all (fun s => ALLOWED_SERVICES.contains s) = true
      then Except.ok (servicesPipeline raws) else Except.error servicesError := by
  by_cases hc : servicesPipeline raws ≠ [] ∧
      (servicesPipeline raws).all (fun s => ALLOWED_SERVICES.contains s) = true
  · rw [if_pos hc]
    simp only [parseServices]
    rw [if_neg ?_]
    rintro (h | h)
    · have hne := List.length_pos.mp h
      obtain ⟨x, hx⟩ := List.exists_mem_of_ne_nil _ hne
      have hmem := List.mem_filter.mp hx
      have hall := List.all_eq_true.mp hc.2 x hmem.1
      simp only [Bool.not_eq_true'] at hmem
      rw [hmem.2] at hall
      cases hall
    · exact hc.1 (List.length_eq_zero.mp h)
  · rw [if_neg hc]
    simp only [parseServices]
    rw [if_pos ?_]
    by_cases hempty : servicesPipeline raws = []
    · exact Or.inr (by simp [hempty])
    · left
      have hnall : ¬((servicesPipeline raws).all
          (fun s => ALLOWED_SERVICES.contains s) = true) :=
        fun hall => hc ⟨hempty, hall⟩
      rw [List.all_eq_true] at hnall
      push_neg at hnall
      obtain ⟨x, hx, hxf⟩ := hnall
      have hbad : x ∈ (servicesPipeline raws).filter
          (fun s => !ALLOWED_SERVICES.contains s) :=
        List.mem_filter.mpr ⟨hx, by simp [Bool.not_eq_true] at hxf ⊢; exact hxf⟩
      exact List.length_pos.mpr (List.ne_nil_of_mem hbad)

/-- C4: the service validator sanitizes each raw value to at most ten
characters, drops empties, deduplicates, and succeeds with exactly that
deduplicated set if and only if it is nonempty and within the allowed
set; otherwise it fails with the single service error.  Concretely,
`["AM","AM","PM"]` gives `["AM","PM"]` and `[]` or `["XX"]` give the
client error. -/
theorem c4_service_options (raws : List Str) :
    (parseServices raws = Except.ok (servicesPipeline raws) ↔
      servicesPipeline raws ≠ [] ∧
        (servicesPipeline raws).all (fun s => ALLOWED_SERVICES.contains s) = true) ∧
    (parseServices raws = Except.error servicesError ↔
      ¬(servicesPipeline raws ≠ [] ∧
        (servicesPipeline raws).all (fun s => ALLOWED_SERVICES.contains s) = true)) ∧
    (servicesPipeline raws).Nodup ∧
    (∀ x ∈ servicesPipeline raws, x.length ≤ 10) ∧
    parseServices [("AM").data, ("AM").data, ("PM").data] =
      Except.ok [("AM").data, ("PM").data] ∧
    parseServices ([] : List Str) = Except.error servicesError ∧
    parseServices [("XX").data] = Except.error servicesError := by
  refine ⟨?_, ?_, (dedupAux_nodup _ []).1, fun x hx => servicesPipeline_len raws x hx,
    rfl, rfl, rfl⟩
  · by_cases hc : servicesPipeline raws ≠ [] ∧
        (servicesPipeline raws).all (fun s => ALLOWED_SERVICES.contains s) = true
    · rw [parseServices_eq, if_pos hc]
      exact ⟨fun _ => hc, fun _ => rfl⟩
    · rw [parseServices_eq, if_neg hc]
      exact ⟨fun h => by simp at h, fun hR => absurd hR hc⟩
  · by_cases hc : servicesPipeline raws ≠ [] ∧
        (servicesPipeline raws).all (fun s => ALLOWED_SERVICES.contains s) = true
    · rw [parseServices_eq, if_pos hc]
      exact ⟨fun h => by simp at h, fun hR => absurd hc hR⟩
    · rw [parseServices_eq, if_neg hc]
      exact ⟨fun _ => hc, fun _ => rfl⟩

/-- Witness for C4 projecting the concrete empty-input rejection. -/
theorem c4_service_options_witness :
    parseServices ([] : List Str) = Except.error servicesError :=
  (c4_service_options []).2.2.2.2.2.1

/-! ## Claim C7: client identification -/

/-- C7 counterexample: the forwarded-for header is present but its first
comma-separated value trims to empty; the code answers the sentinel
`"unknown"`, not the real-IP header value the claim requires. -/
theorem c7_forwarded_empty_counterexample :
    getClientId (some ((" ,1.2.3.4").data)) (some (("9.9.9.9").data)) = unknownId ∧
    unknownId ≠ ("9.9.9.9").data :=
  ⟨rfl, by decide⟩

/-- C7 (amended): the client identifier is the trimmed first
comma-separated value of the forwarded-for header when that header is a
nonempty string and the trimmed value is nonempty; when the header is a
nonempty string but its first value trims to empty, the identifier is
the sentinel `"unknown"` (the real-IP header is not consulted); the
real-IP header is used only when the forwarded-for header is absent or
the empty string; otherwise the sentinel is used. -/
theorem c7_amended_client_id :
    (∀ (f : Str) (realIp : Option Str), f ≠ [] →
      trimStr (f.takeWhile (fun c => c ≠ ',')) ≠ [] →
      getClientId (some f) realIp = trimStr (f.takeWhile (fun c => c ≠ ','))) ∧
    (∀ (f : Str) (realIp : Option Str), f ≠ [] →
      trimStr (f.takeWhile (fun c => c ≠ ',')) = [] →
      getClientId (some f) realIp = unknownId) ∧
    (∀ r : Str, r ≠ [] →
      getClientId none (some r) = r ∧ getClientId (some []) (some r) = r) ∧
    (getClientId none none = unknownId ∧ getClientId (some []) none = unknownId ∧
      getClientId none (some []) = unknownId ∧
      getClientId (some []) (some []) = unknownId) := by
  refine ⟨?_, ?_, ?_, rfl, rfl, rfl, rfl⟩
  · intro f rip hf hfirst
    simp only [getClientId]
    rw [if_neg (by simp only [List.isEmpty_iff]; exact hf),
      if_neg (by simp only [List.isEmpty_iff]; exact hfirst)]
  · intro f rip hf hfirst
    simp only [getClientId]
    rw [if_neg (by simp only [List.isEmpty_iff]; exact hf),
      if_pos (by simp only [List.isEmpty_iff]; exact hfirst)]
  · intro r hr
    constructor
    · simp [getClientId, realIpFallback, List.isEmpty_iff, hr]
    · simp [getClientId, realIpFallback, List.isEmpty_iff, hr]

/-- Witness for the amended C7: the first forwarded-for value wins. -/
theorem c7_amended_client_id_witness :
    getClientId (some (("1.2.3.4, 5.6.7.8").data)) none = ("1.2.3.4").data :=
  (c7_amended_client_id.1 (("1.2.3.4, 5.6.7.8").data) none (by decide)
    (by decide)).trans rfl

/-! ## Claims C3, C9: the intake gateway -/

/-- Unfolding of `validateFields` at a cons cell. -/
theorem validateFields_cons (k : Str) (o : FieldOptions)
    (rest : List (Str × FieldOptions)) (fd : FormData) :
    validateFields ((k, o) :: rest) fd =
      match parseField k (fd.get k) o with
      | Except.error e => Except.error e
      | Except.ok v =>
        match validateFields rest fd with
        | Except.error e => Except.error e
        | Except.ok vs => Except.ok (v :: vs) := rfl

/-- A field failure after a prefix of successful fields is the outcome of
the whole sequential validation. -/
theorem validateFields_append_ok (fd : FormData) :
    ∀ (pre rest : List (Str × FieldOptions)),
    (∀ kv ∈ pre, ∃ v, parseField kv.1 (fd.get kv.1) kv.2 = Except.ok v) →
    ∀ e, validateFields rest fd = Except.error e →
    validateFields (pre ++ rest) fd = Except.error e := by
  intro pre
  induction pre with
  | nil => intro rest _ e he; simpa using he
  | cons kv pre ih =>
    intro rest hok e he
    obtain ⟨v, hv⟩ := hok kv (List.mem_cons_self kv pre)
    obtain ⟨k, o⟩ := kv
    have harg := ih rest (fun kv' hm => hok kv' (List.mem_cons_of_mem _ hm)) e he
    rw [List.cons_append, validateFields_cons, hv, harg]

/-- Every error coming out of the sequential field validation has
status 400. -/
theorem validateFields_error_status (fd : FormData) :
    ∀ (l : List (Str × FieldOptions)) (e : ClientError),
    validateFields l fd = Except.error e → e.status = 400 := by
  intro l
  induction l with
  | nil => intro e he; simp [validateFields] at he
  | cons kv rest ih =>
    intro e he
    obtain ⟨k, o⟩ := kv
    simp only [validateFields] at he
    cases hpf : parseField k (fd.get k) o with
    | error e' =>
      rw [hpf] at he
      have he' : (Except.error e' : Except ClientError (List Str)) = Except.error e := he
      injection he' with he'
      subst he'
      exact parseField_error_status k (fd.get k) o e' hpf
    | ok v =>
      rw [hpf] at he
      cases hrest : validateFields rest fd with
      | error e' =>
        rw [hrest] at he
        have he' : (Except.error e' : Except ClientError (List Str)) = Except.error e := he
        injection he' with he'
        subst he'
        exact ih e' hrest
      | ok vs =>
        rw [hrest] at he
        exact absurd he (by simp)

/-- The only error `parseServices` produces is the service error. -/
theorem parseServices_error_elim (raws : List Str) (e : ClientError)
    (h : parseServices raws = Except.error e) : e = servicesError := by
  rw [parseServices_eq] at h
  by_cases hc : servicesPipeline raws ≠ [] ∧
      (servicesPipeline raws).all (fun s => ALLOWED_SERVICES.contains s) = true
  · rw [if_pos hc] at h; exact absurd h (by simp)
  · rw [if_neg hc] at h; injection h with h; exact h.symm

/-- Every error of the whole validation phase has status 400. -/
theorem validateAll_error_status (fd : FormData) (e : ClientError)
    (h : validateAll fd = Except.error e) : e.status = 400 := by
  simp only [validateAll] at h
  cases hvf : validateFields fieldDefs fd with
  | error e' =>
    rw [hvf] at h
    have h' : (Except.error e' : Except ClientError (List Str × List Str)) =
        Except.error e := h
    injection h' with h'
    subst h'
    exact validateFields_error_status fd fieldDefs e' hvf
  | ok vs =>
    rw [hvf] at h
    cases hps : parseServices (fd.getAll (("service_options").data)) with
    | error e' =>
      rw [hps] at h
      have h' : (Except.error e' : Except ClientError (List Str × List Str)) =
          Except.error e := h
      injection h' with h'
      subst h'
      rw [parseServices_error_elim _ e' hps]
      rfl
    | ok svc =>
      rw [hps] at h
      exact absurd h (by simp)

/-- C3: when any part of validation fails, the gateway answers with that
`ClientError` (status 400) and performs zero insert attempts; the insert
is attempted exactly once precisely when the whole validation succeeds;
and the error returned is the error of the first failing field in the
fixed source order. -/
theorem c3_fail_fast (fd : FormData) (ins : Option Str) :
    (∀ e, validateAll fd = Except.error e →
      e.status = 400 ∧ gatewayBody fd ins = (⟨400, false, e.message⟩, 0, [])) ∧
    ((gatewayBody fd ins).2.1 = 1 ↔ (validateAll fd).isOk = true) ∧
    (∀ (pre post : List (Str × FieldOptions)) (kv : Str × FieldOptions) (e : ClientError),
      fieldDefs = pre ++ kv :: post →
      (∀ kv' ∈ pre, ∃ v, parseField kv'.1 (fd.get kv'.1) kv'.2 = Except.ok v) →
      parseField kv.1 (fd.get kv.1) kv.2 = Except.error e →
      validateAll fd = Except.error e) := by
  refine ⟨?_, ?_, ?_⟩
  · intro e he
    have hst := validateAll_error_status fd e he
    refine ⟨hst, ?_⟩
    simp only [gatewayBody, he, hst]
  · constructor
    · intro h1
      cases hva : validateAll fd with
      | error e =>
        rw [gatewayBody.eq_def, hva] at h1
        exact absurd h1 (by simp)
      | ok r => simp [hva, Except.isOk, Except.toBool]
    · intro h2
      cases hva : validateAll fd with
      | error e => rw [hva] at h2; simp [Except.isOk, Except.toBool] at h2
      | ok r =>
        simp only [gatewayBody, hva]
        cases ins with
        | some d => rfl
        | none => rfl
  · intro pre post kv e hsplit hok hfail
    have hvf : validateFields fieldDefs fd = Except.error e := by
      rw [hsplit]
      refine validateFields_append_ok fd pre (kv :: post) hok e ?_
      obtain ⟨k, o⟩ := kv
      simp only [validateFields]
      rw [hfail]
    simp only [validateAll, hvf]

/-- Witness for C3: the valid form with `father_email` removed yields the
father-email required error with status 400 and zero inserts. -/
theorem c3_fail_fast_witness :
    (requiredError (("email del padre").data)).status = 400 ∧
    gatewayBody fdNoFatherEmail none =
      (⟨400, false, (requiredError (("email del padre").data)).message⟩, 0, []) :=
  (c3_fail_fast fdNoFatherEmail none).1 (requiredError (("email del padre").data)) rfl

/-- C9: after a fully successful validation, a store failure is answered
with status 500 and the fixed generic message — the same response for
every internal failure detail, which is recorded only in the operator
log — while a store success is answered with status 200 and the success
flag set. -/
theorem c9_store_failure (fd : FormData) (detail : Str)
    (h : (validateAll fd).isOk = true) :
    gatewayBody fd (some detail) = (⟨500, false, serverErrorMsg⟩, 1, [detail]) ∧
    gatewayBody fd none = (⟨200, true, successMsg⟩, 1, []) := by
  cases hva : validateAll fd with
  | error e => rw [hva] at h; simp [Except.isOk, Except.toBool] at h
  | ok r => exact ⟨by simp [gatewayBody, hva], by simp [gatewayBody, hva]⟩

/-- Witness for C9 on the concrete fully valid form. -/
theorem c9_store_failure_witness :
    gatewayBody fdValid (some (("boom").data)) =
      (⟨500, false, serverErrorMsg⟩, 1, [("boom").data]) ∧
    gatewayBody fdValid none = (⟨200, true, successMsg⟩, 1, []) :=
  c9_store_failure fdValid (("boom").data) rfl

end Formulario
